import Mathlib

/-!
Verification of the sagitta model-export pipeline scripts.

The definitions below are shallow embeddings of the Python functions in
`scripts/`.  Tensors are represented as nested lists over a linear ordered
field (instantiated at `ℚ` for exact checks and at `ℝ` where the property
involves Euclidean norms):

* a `[batch, seq, hidden]` hidden-state tensor is a `List (List (List α))`;
* a `[batch, seq]` attention mask is a `List (List α)`;
* a `[batch, hidden]` pooled output is a `List (List α)`.
-/

namespace Sagitta

variable {α : Type*} [LinearOrderedField α]

/-- The clamp floor `1e-9` used in `mean_pooling`
(`scripts/convert_bge_small_model.py`, line 24: `torch.clamp(..., min=1e-9)`). -/
def poolEps : α := 1 / 10 ^ 9

/-- Elementwise addition of two vectors (`torch.sum` accumulation along the
sequence axis adds token vectors coordinatewise). -/
def vecAdd (a b : List α) : List α := List.zipWith (· + ·) a b

/-- The all-zero vector of length `n`. -/
def zeroVec (n : Nat) : List α := List.replicate n (0 : α)

/-- Sum of a list of `hidden`-sized vectors, coordinatewise; this is
`torch.sum(t, 1)` applied to a `[seq, hidden]` slice. -/
def sumVecs (n : Nat) (vs : List (List α)) : List α := vs.foldr vecAdd (zeroVec n)

/-- One batch row of `mean_pooling` from `scripts/convert_bge_small_model.py`
lines 19-25 (the identical function also appears in
`convert_all_minilm_model.py`, `convert_bge_dynamic_batching.py`,
`convert_bge_small_gpu_fp16.py` and `convert_bge_base_model.py`):

* `inputMaskExpanded` is `attention_mask.unsqueeze(-1).expand(...)`: each mask
  scalar is broadcast across the hidden axis;
* `masked` is `token_embeddings * input_mask_expanded`;
* `sumEmbeddings` is `torch.sum(..., 1)`;
* `sumMask` is `torch.clamp(input_mask_expanded.sum(1), min=1e-9)`;
* the result is `sum_embeddings / sum_mask`, elementwise. -/
def meanPoolingRow (n : Nat) (tokens : List (List α)) (maskRow : List α) : List α :=
  let inputMaskExpanded := maskRow.map (fun m => List.replicate n m)
  let masked := List.zipWith (fun t me => List.zipWith (· * ·) t me) tokens inputMaskExpanded
  let sumEmbeddings := sumVecs n masked
  let sumMask := (sumVecs n inputMaskExpanded).map (fun s => max s poolEps)
  List.zipWith (· / ·) sumEmbeddings sumMask

/-- `mean_pooling` over a whole batch (`scripts/convert_bge_small_model.py`
lines 19-25): all tensor operations act rowwise on the batch axis. `n` is the
static hidden size of the `[batch, seq, hidden]` input tensor. -/
def mean_pooling (n : Nat) (tokenEmbeddings : List (List (List α)))
    (attentionMask : List (List α)) : List (List α) :=
  List.zipWith (meanPoolingRow n) tokenEmbeddings attentionMask

/-- Sum of squares of a vector (the square of its Euclidean norm). -/
def sumSq (v : List α) : α := (v.map (fun x => x * x)).sum

/-- Euclidean (L2) norm of a vector over `ℝ`. -/
noncomputable def l2norm (v : List ℝ) : ℝ := Real.sqrt (sumSq v)

/-- The default `eps = 1e-12` of `torch.nn.functional.normalize`: the call
`torch.nn.functional.normalize(x, p=2, dim=1)` in
`scripts/convert_bge_dynamic_batching.py` line 30 and
`scripts/convert_bge_base_model.py` line 38 divides each row by
`max(row_norm, 1e-12)`. -/
noncomputable def normalizeEps : ℝ := 1 / 10 ^ 12

/-- `torch.nn.functional.normalize(·, p=2, dim=1)` applied to one row:
divide every coordinate by the eps-clamped Euclidean norm of the row. -/
noncomputable def l2normalizeRow (v : List ℝ) : List ℝ :=
  v.map (fun x => x / max (l2norm v) normalizeEps)

/-- `DynamicBatchSentenceTransformer.forward`
(`scripts/convert_bge_dynamic_batching.py` lines 26-31; identically
`BGEModelONNX.forward` in `scripts/convert_bge_base_model.py` lines 33-39):
mean-pool the encoder's hidden states, then L2-normalize each row.  The
encoder itself is external; its `[batch, seq, hidden]` output is the
`tokenEmbeddings` argument. -/
noncomputable def dynamicBatchForward (n : Nat) (tokenEmbeddings : List (List (List ℝ)))
    (attentionMask : List (List ℝ)) : List (List ℝ) :=
  (mean_pooling n tokenEmbeddings attentionMask).map l2normalizeRow

/-- `np.isclose` on scalars: `|a - b| <= atol + rtol * |b|` (numpy semantics;
`b` is the second argument). -/
def npIsclose (rtol atol x y : ℚ) : Bool := decide (|x - y| ≤ atol + rtol * |y|)

/-- `np.allclose` on two same-shaped arrays, flattened to lists. -/
def npAllclose (rtol atol : ℚ) (a b : List ℚ) : Bool :=
  (List.zipWith (npIsclose rtol atol) a b).all (fun t => t)

/-- numpy's default relative tolerance `rtol = 1e-5`, left in force by the
call `np.allclose(pytorch_embedding.numpy(), onnx_embedding, atol=1e-4)` in
`scripts/convert_all_minilm_model.py` line 266. -/
def allcloseDefaultRtol : ℚ := 1 / 10 ^ 5

/-- The absolute tolerance `atol = 1e-4` passed at
`scripts/convert_all_minilm_model.py` line 266. -/
def verifyAtol : ℚ := 1 / 10 ^ 4

/-- Outcome of the full-precision comparison block of `verify_onnx_model`
(`scripts/convert_all_minilm_model.py` lines 264-274). -/
inductive CompareVerdict where
  | matchClose
  | mismatchWarn
  | shapeMismatch
deriving DecidableEq

/-- The comparison block of `verify_onnx_model`
(`scripts/convert_all_minilm_model.py` lines 264-274): if the shapes agree,
report a close match when `np.allclose(ref, onnx, atol=1e-4)` holds and a
mismatch warning (with the difference norm printed) otherwise; unequal shapes
are an error. -/
def compareOutputs (refShape onnxShape : List Nat) (ref onnx : List ℚ) : CompareVerdict :=
  if refShape = onnxShape then
    if npAllclose allcloseDefaultRtol verifyAtol ref onnx then CompareVerdict.matchClose
    else CompareVerdict.mismatchWarn
  else CompareVerdict.shapeMismatch

/-- Whether step 4 of `verify_onnx_model` ran a numerical comparison at all. -/
inductive NumericalCheck where
  | compared (v : CompareVerdict)
  | skippedQuantized
deriving DecidableEq

/-- Step 4 of `verify_onnx_model` (`scripts/convert_all_minilm_model.py`
lines 250-276): the PyTorch reference comparison runs only `if not quantized`;
for a quantized model it is skipped with the message "Skipping PyTorch
comparison for quantized model (expected differences)". -/
def numericalComparisonStep (quantized : Bool) (refShape onnxShape : List Nat)
    (ref onnx : List ℚ) : NumericalCheck :=
  if !quantized then NumericalCheck.compared (compareOutputs refShape onnxShape ref onnx)
  else NumericalCheck.skippedQuantized

/-- The shape policy of one export: which axes of the exported graph are
declared dynamic (`dynamic_axes`), and the shape of the representative dummy
input driving `torch.onnx.export` tracing. -/
structure ShapePolicy where
  batchDynamic : Bool
  seqDynamic : Bool
  dummyBatchSize : Nat
  dummySeqLen : Nat
deriving DecidableEq

/-- `get_optimal_sequence_length_for_gpu`
(`scripts/convert_bge_small_gpu_fp16.py` lines 90-128): detect the model's
maximum position count, then return `min(384, detected_max) if detected_max
else 384`. `none` models the exception / not-found paths. -/
def get_optimal_sequence_length_for_gpu (detectedMax : Option Nat) : Nat :=
  match detectedMax with
  | some m => if m = 0 then 384 else min 384 m
  | none => 384

/-- Export configuration of `download_and_convert_st_model_to_onnx` in
`scripts/convert_bge_small_model.py` lines 143-157: dummy input
`torch.ones(1, seq_len)` where `seq_len = get_model_max_sequence_length(...)`,
with batch and sequence axes both declared dynamic. -/
def bgeSmallShapePolicy (seqLen : Nat) : ShapePolicy :=
  { batchDynamic := true, seqDynamic := true, dummyBatchSize := 1, dummySeqLen := seqLen }

/-- Export configuration of `scripts/convert_all_minilm_model.py`
lines 104-119: dummy `torch.ones(1, 128)`, both axes dynamic. -/
def allMinilmShapePolicy : ShapePolicy :=
  { batchDynamic := true, seqDynamic := true, dummyBatchSize := 1, dummySeqLen := 128 }

/-- Export configuration of `scripts/convert_bge_base_model.py`
lines 74-89: dummy `torch.ones(1, 512)`, both axes dynamic. -/
def bgeBaseShapePolicy : ShapePolicy :=
  { batchDynamic := true, seqDynamic := true, dummyBatchSize := 1, dummySeqLen := 512 }

/-- Export configuration of `create_dynamic_model` in
`scripts/convert_bge_dynamic_batching.py` lines 62-78: dummy
`torch.ones(2, 128)`, both axes dynamic. -/
def dynamicBatchingShapePolicy : ShapePolicy :=
  { batchDynamic := true, seqDynamic := true, dummyBatchSize := 2, dummySeqLen := 128 }

/-- Export configuration of `download_and_convert_gpu_model` in
`scripts/convert_bge_small_gpu_fp16.py` lines 167-183: dummy
`torch.ones(1, seq_len)` with `seq_len = get_optimal_sequence_length_for_gpu`,
batch axis dynamic, sequence axis fixed. -/
def gpuFp16ShapePolicy (detectedMax : Option Nat) : ShapePolicy :=
  { batchDynamic := true, seqDynamic := false, dummyBatchSize := 1,
    dummySeqLen := get_optimal_sequence_length_for_gpu detectedMax }

/-- Export configuration of `scripts/convert_e5_large_v2_model.py`
lines 41-53: dummy `torch.ones(1, 128)`, both axes dynamic. -/
def e5LargeV2ShapePolicy : ShapePolicy :=
  { batchDynamic := true, seqDynamic := true, dummyBatchSize := 1, dummySeqLen := 128 }

/-- Export configuration of `scripts/convert_st_code_model.py`
lines 81-97: dummy `torch.ones(1, 128)`, both axes dynamic. -/
def stCodeShapePolicy : ShapePolicy :=
  { batchDynamic := true, seqDynamic := true, dummyBatchSize := 1, dummySeqLen := 128 }

/-- Export configuration of `scripts/codebert.py` lines 33-48: dummy
`torch.ones(1, 512)`, batch and sequence axes dynamic. -/
def codebertShapePolicy : ShapePolicy :=
  { batchDynamic := true, seqDynamic := true, dummyBatchSize := 1, dummySeqLen := 512 }

/-- Export configuration of `scripts/optimize_bge_for_gpu.py` lines 39-66:
a single sentence tokenized with `padding="max_length", max_length=512`
(batch 1, length 512), batch and sequence axes dynamic. -/
def optimizeBgeForGpuShapePolicy : ShapePolicy :=
  { batchDynamic := true, seqDynamic := true, dummyBatchSize := 1, dummySeqLen := 512 }

/-- Export configuration of `scripts/download_optimized_bge_model.py`
lines 80-108: dummy `torch.ones(1, 512)`; the sequence axis is dynamic only
when `dynamic_sequence` is set, the batch axis always is. -/
def downloadOptimizedShapePolicy (dynamicSequence : Bool) : ShapePolicy :=
  { batchDynamic := true, seqDynamic := dynamicSequence, dummyBatchSize := 1,
    dummySeqLen := 512 }

/-- The two ONNX file paths of `download_and_convert_st_model_to_onnx`
(`scripts/convert_bge_small_model.py` lines 159-165): `finalModel` is
`<output_dir>/model.onnx` and `fp32Temp` is `<output_dir>/model_fp32.onnx`. -/
inductive ModelPath where
  | finalModel
  | fp32Temp
deriving DecidableEq

/-- What a file on disk can hold in this model: a complete full-precision
export, a complete INT8-quantized model, or the truncated remains of an
interrupted write. -/
inductive ModelFile where
  | fullPrecision
  | quantizedInt8
  | incompleteWrite
deriving DecidableEq

/-- A tiny file-system state: contents of the two model paths. -/
def FileSys := ModelPath → Option ModelFile

/-- The empty output directory (after `os.makedirs`). -/
def emptyFs : FileSys := fun _ => none

/-- Writing a complete file at a path. -/
def fsWrite (fs : FileSys) (p : ModelPath) (m : ModelFile) : FileSys :=
  fun q => if q = p then some m else fs q

/-- `os.remove p`. -/
def fsRemove (fs : FileSys) (p : ModelPath) : FileSys :=
  fun q => if q = p then none else fs q

/-- `os.rename src dst`: `dst` receives the contents of `src` (replacing any
previous file at `dst`), `src` disappears. -/
def fsRename (fs : FileSys) (src dst : ModelPath) : FileSys :=
  fun q => if q = dst then fs src else if q = src then none else fs q

/-- The path `torch.onnx.export` writes to
(`scripts/convert_bge_small_model.py` lines 159-165): `model_fp32.onnx` when
quantizing, otherwise directly `model.onnx` (`temp_onnx_path =
final_onnx_path`). -/
def exportTargetPath (quantized : Bool) : ModelPath :=
  if quantized then ModelPath.fp32Temp else ModelPath.finalModel

/-- File-system effect of `download_and_convert_st_model_to_onnx`
(`scripts/convert_bge_small_model.py` lines 159-216) when the export itself
succeeds, together with the returned model path:

* export writes a full-precision graph to `exportTargetPath`;
* if quantizing and `quantize_onnx_model` succeeds (`quantizeOk`), the
  quantizer writes `model.onnx` and the fp32 temp file is removed;
* if quantizing and quantization fails, `os.rename(temp, final)` moves the
  full-precision export into place;
* `final_onnx_path` is returned in every case. -/
def runConversion (quantized quantizeOk : Bool) : FileSys × ModelPath :=
  let temp := exportTargetPath quantized
  let final := ModelPath.finalModel
  let fs1 := fsWrite emptyFs temp ModelFile.fullPrecision
  if quantized then
    if quantizeOk then (fsRemove (fsWrite fs1 final ModelFile.quantizedInt8) temp, final)
    else (fsRename fs1 temp final, final)
  else (fs1, final)

/-- File-system state when `torch.onnx.export` raises partway through writing
its target file: the `except` branch (`scripts/convert_bge_small_model.py`
lines 183-186) prints and calls `sys.exit(1)` without removing the partially
written target. -/
def exportInterruptedFs (quantized : Bool) : FileSys :=
  fsWrite emptyFs (exportTargetPath quantized) ModelFile.incompleteWrite

end Sagitta

namespace Sagitta

variable {α : Type*} [LinearOrderedField α]

theorem sumVecs_nil (n : Nat) : sumVecs n ([] : List (List α)) = zeroVec n := rfl

theorem sumVecs_cons (n : Nat) (v : List α) (vs : List (List α)) :
    sumVecs n (v :: vs) = vecAdd v (sumVecs n vs) := rfl

theorem getD_zipWith {β γ δ : Type*} (f : β → γ → δ) (a : List β) (b : List γ)
    (j : Nat) (d₁ : β) (d₂ : γ) (d₃ : δ) (hja : j < a.length) (hjb : j < b.length) :
    (List.zipWith f a b).getD j d₃ = f (a.getD j d₁) (b.getD j d₂) := by
  induction a generalizing b j with
  | nil => simp at hja
  | cons x xs ih =>
    cases b with
    | nil => simp at hjb
    | cons y ys =>
      cases j with
      | zero => simp
      | succ k =>
        simp only [List.zipWith_cons_cons, List.getD_cons_succ]
        exact ih ys k (by simpa using hja) (by simpa using hjb)

theorem getD_map {β γ : Type*} (f : β → γ) (l : List β) (j : Nat) (d₁ : β) (d₂ : γ)
    (h : j < l.length) : (l.map f).getD j d₂ = f (l.getD j d₁) := by
  induction l generalizing j with
  | nil => simp at h
  | cons x xs ih =>
    cases j with
    | zero => simp
    | succ k =>
      simp only [List.map_cons, List.getD_cons_succ]
      exact ih k (by simpa using h)

theorem getD_replicate {β : Type*} (m : β) (n j : Nat) (d : β) (h : j < n) :
    (List.replicate n m).getD j d = m := by
  induction n generalizing j with
  | zero => omega
  | succ k ih =>
    cases j with
    | zero => simp [List.replicate]
    | succ i =>
      simp only [List.replicate, List.getD_cons_succ]
      exact ih i (by omega)

theorem zeroVec_getD (n j : Nat) : (zeroVec (α := α) n).getD j 0 = 0 := by
  rcases lt_or_le j n with h | h
  · exact getD_replicate 0 n j 0 h
  · rw [List.getD_eq_default]
    simpa [zeroVec] using h

theorem exists_of_mem_zipWith {β γ δ : Type*} {f : β → γ → δ} {l₁ : List β}
    {l₂ : List γ} {x : δ} (h : x ∈ List.zipWith f l₁ l₂) :
    ∃ a ∈ l₁, ∃ b ∈ l₂, x = f a b := by
  induction l₁ generalizing l₂ with
  | nil => simp at h
  | cons a as ih =>
    cases l₂ with
    | nil => simp at h
    | cons b bs =>
      rcases (by simpa using h : x = f a b ∨ x ∈ List.zipWith f as bs) with h' | h'
      · exact ⟨a, by simp, b, by simp, h'⟩
      · obtain ⟨a', ha', b', hb', hx⟩ := ih h'
        exact ⟨a', by simp [ha'], b', by simp [hb'], hx⟩

theorem sumVecs_length (n : Nat) (vs : List (List α)) (h : ∀ v ∈ vs, v.length = n) :
    (sumVecs n vs).length = n := by
  induction vs with
  | nil => simp [sumVecs, zeroVec]
  | cons v vs ih =>
    have hv : v.length = n := h v (by simp)
    have hrest := ih (fun w hw => h w (by simp [hw]))
    rw [sumVecs_cons, vecAdd, List.length_zipWith, hv, hrest, Nat.min_self]

theorem sumVecs_getD (n : Nat) (vs : List (List α)) (j : Nat) (hj : j < n)
    (h : ∀ v ∈ vs, v.length = n) :
    (sumVecs n vs).getD j 0 = (vs.map (fun v => v.getD j 0)).sum := by
  induction vs with
  | nil => rw [sumVecs_nil, zeroVec_getD]; simp
  | cons v vs ih =>
    have hv : v.length = n := h v (by simp)
    have hrest := sumVecs_length n vs (fun w hw => h w (by simp [hw]))
    rw [sumVecs_cons, vecAdd,
      getD_zipWith (· + ·) v (sumVecs n vs) j 0 0 0 (by omega) (by omega),
      ih (fun w hw => h w (by simp [hw]))]
    simp

theorem masked_map_getD_sum (n j : Nat) (hj : j < n) (tokens : List (List α))
    (maskRow : List α) (htok : ∀ t ∈ tokens, t.length = n) :
    ((List.zipWith (fun t me => List.zipWith (· * ·) t me) tokens
        (maskRow.map (fun m => List.replicate n m))).map (fun v => v.getD j 0)).sum =
      (List.zipWith (fun t m => t.getD j 0 * m) tokens maskRow).sum := by
  induction tokens generalizing maskRow with
  | nil => simp
  | cons t ts ih =>
    cases maskRow with
    | nil => simp
    | cons m ms =>
      have ht : t.length = n := htok t (by simp)
      simp only [List.map_cons, List.zipWith_cons_cons, List.sum_cons]
      rw [getD_zipWith (· * ·) t (List.replicate n m) j 0 0 0 (by omega)
            (by simpa using hj),
        getD_replicate m n j 0 hj, ih ms (fun u hu => htok u (by simp [hu]))]

theorem maskExpanded_sum_getD (n j : Nat) (hj : j < n) (maskRow : List α) :
    (sumVecs n (maskRow.map (fun m => List.replicate n m))).getD j 0 = maskRow.sum := by
  rw [sumVecs_getD n _ j hj
    (by intro v hv; obtain ⟨m, _, rfl⟩ := List.mem_map.mp hv; simp)]
  rw [List.map_map]
  have hfun : ((fun v : List α => v.getD j 0) ∘ fun m : α => List.replicate n m) =
      fun m : α => m := funext fun m => getD_replicate m n j 0 hj
  rw [hfun]
  simp

theorem masked_length (n : Nat) (tokens : List (List α)) (maskRow : List α)
    (htok : ∀ t ∈ tokens, t.length = n) :
    ∀ v ∈ List.zipWith (fun t me => List.zipWith (· * ·) t me) tokens
      (maskRow.map (fun m => List.replicate n m)), v.length = n := by
  intro v hv
  obtain ⟨t, ht, me, hme, rfl⟩ := exists_of_mem_zipWith hv
  obtain ⟨m, _, rfl⟩ := List.mem_map.mp hme
  rw [List.length_zipWith, htok t ht]
  simp

theorem meanPoolingRow_spec (n : Nat) (tokens : List (List α)) (maskRow : List α)
    (htok : ∀ t ∈ tokens, t.length = n) :
    (meanPoolingRow n tokens maskRow).length = n ∧
    ∀ j, j < n → (meanPoolingRow n tokens maskRow).getD j 0 =
      (List.zipWith (fun t m => t.getD j 0 * m) tokens maskRow).sum /
        max maskRow.sum poolEps := by
  have hexlen : ∀ v ∈ maskRow.map (fun m => List.replicate n m), v.length = n := by
    intro v hv; obtain ⟨m, _, rfl⟩ := List.mem_map.mp hv; simp
  have hemb := sumVecs_length n _ (masked_length n tokens maskRow htok)
  have hmask0 := sumVecs_length n _ hexlen
  constructor
  · simp only [meanPoolingRow, List.length_zipWith, List.length_map, hemb, hmask0,
      Nat.min_self]
  · intro j hj
    simp only [meanPoolingRow]
    rw [getD_zipWith (· / ·) _ _ j 0 0 0 (by omega) (by simp only [List.length_map]; omega),
      getD_map _ _ j 0 0 (by omega),
      sumVecs_getD n _ j hj (masked_length n tokens maskRow htok),
      masked_map_getD_sum n j hj tokens maskRow htok,
      maskExpanded_sum_getD n j hj maskRow]

theorem ext_of_getD {l₁ l₂ : List α} (n : Nat) (h₁ : l₁.length = n) (h₂ : l₂.length = n)
    (h : ∀ j, j < n → l₁.getD j 0 = l₂.getD j 0) : l₁ = l₂ := by
  apply List.ext_getElem (by omega)
  intro j hj1 hj2
  have hgd := h j (by omega)
  rwa [List.getD_eq_getElem?_getD, List.getElem?_eq_getElem hj1, Option.getD_some,
    List.getD_eq_getElem?_getD, List.getElem?_eq_getElem hj2, Option.getD_some] at hgd

theorem sum01_eq_countP (l : List ℚ) (h : ∀ m ∈ l, m = 0 ∨ m = 1) :
    l.sum = ((l.countP (fun m => decide (m = 1)) : Nat) : ℚ) := by
  induction l with
  | nil => simp
  | cons m ms ih =>
    have hrest := ih (fun x hx => h x (by simp [hx]))
    rcases h m (by simp) with h0 | h1
    · subst h0
      rw [List.sum_cons, hrest, List.countP_cons]
      norm_num
    · subst h1
      rw [List.sum_cons, hrest, List.countP_cons]
      push_cast
      norm_num [add_comm]

theorem zipWith_getDmul_replicate_zero_sum (j k : Nat) (pad : List (List α)) :
    (List.zipWith (fun (t : List α) m => t.getD j 0 * m) pad
      (List.replicate k (0 : α))).sum = 0 := by
  induction pad generalizing k with
  | nil => simp
  | cons t ts ih =>
    cases k with
    | zero => simp
    | succ k' =>
      rw [List.replicate_succ, List.zipWith_cons_cons, List.sum_cons, mul_zero,
        zero_add, ih k']

theorem getD_mem_of_lt {β : Type*} (l : List β) (i : Nat) (d : β) (h : i < l.length) :
    l.getD i d ∈ l := by
  rw [List.getD_eq_getElem?_getD, List.getElem?_eq_getElem h, Option.getD_some]
  exact List.getElem_mem h

/-- Claim C1: for a `[batch, seq, hidden]` hidden-state tensor and a 0/1
attention mask of shape `[batch, seq]`, `mean_pooling` returns a tensor of
shape `[batch, hidden]` regardless of the sequence length, whose `(i, j)`
entry is the masked coordinate sum divided by the row's count of mask ones
clamped below at `1e-9`. -/
theorem mean_pooling_formula_and_shape (n : Nat) (embs : List (List (List ℚ)))
    (maskB : List (List ℚ)) (hbatch : embs.length = maskB.length)
    (htok : ∀ row ∈ embs, ∀ t ∈ row, t.length = n)
    (hmask01 : ∀ mrow ∈ maskB, ∀ m ∈ mrow, m = 0 ∨ m = 1) :
    (mean_pooling n embs maskB).length = embs.length ∧
    (∀ row ∈ mean_pooling n embs maskB, row.length = n) ∧
    (∀ i j : Nat, i < embs.length → j < n →
      ((mean_pooling n embs maskB).getD i []).getD j 0 =
        (List.zipWith (fun t m => t.getD j 0 * m) (embs.getD i []) (maskB.getD i [])).sum /
          max (((maskB.getD i []).countP (fun m => decide (m = 1)) : ℚ)) (1 / 10 ^ 9)) := by
  refine ⟨?_, ?_, ?_⟩
  · rw [mean_pooling, List.length_zipWith, hbatch, Nat.min_self]
  · intro row hrow
    obtain ⟨t, ht, mrow, _, rfl⟩ := exists_of_mem_zipWith hrow
    exact (meanPoolingRow_spec n t mrow (htok t ht)).1
  · intro i j hi hj
    have hrow : (mean_pooling n embs maskB).getD i [] =
        meanPoolingRow n (embs.getD i []) (maskB.getD i []) := by
      rw [mean_pooling]
      exact getD_zipWith (meanPoolingRow n) embs maskB i [] [] [] hi (by omega)
    have hspec := meanPoolingRow_spec n (embs.getD i []) (maskB.getD i [])
      (htok _ (getD_mem_of_lt embs i [] hi))
    rw [hrow, hspec.2 j hj,
      sum01_eq_countP (maskB.getD i []) (hmask01 _ (getD_mem_of_lt maskB i [] (by omega)))]
    rfl

/-- Witness for C1: the hidden tensor `[[[1,2],[3,4]]]` (batch 1, seq 2,
hidden 2) with mask `[[1,0]]` — entry `(0,0)` of the pooled output equals the
spec formula. -/
theorem mean_pooling_formula_and_shape_witness :
    ((mean_pooling 2 [[[(1:ℚ),2],[3,4]]] [[1,0]]).getD 0 []).getD 0 0 =
      (List.zipWith (fun (t : List ℚ) m => t.getD 0 0 * m)
          (([[[(1:ℚ),2],[3,4]]] : List (List (List ℚ))).getD 0 [])
          (([[(1:ℚ),0]] : List (List ℚ)).getD 0 [])).sum /
        max (((([[(1:ℚ),0]] : List (List ℚ)).getD 0 []).countP
            (fun m => decide (m = 1)) : ℚ)) (1 / 10 ^ 9) :=
  (mean_pooling_formula_and_shape 2 [[[(1:ℚ),2],[3,4]]] [[1,0]]
    (by decide) (by decide) (by decide)).2.2 0 0 (by decide) (by decide)

/-- Claim C6: pooling row `X` alone gives the same vector as row 0 of pooling
the batch `[X ++ padding, Y]` in which `X` was padded with zero-mask
positions; the equality is exact over `ℚ`, hence within any tolerance. -/
theorem mean_pooling_batch_consistency (n : Nat) (X Y pad : List (List ℚ))
    (mX mY : List ℚ) (hlenX : X.length = mX.length)
    (htokX : ∀ t ∈ X, t.length = n) (htokPad : ∀ t ∈ pad, t.length = n) :
    (mean_pooling n [X ++ pad, Y] [mX ++ List.replicate pad.length 0, mY]).getD 0 [] =
      (mean_pooling n [X] [mX]).getD 0 [] := by
  have htokAll : ∀ t ∈ X ++ pad, t.length = n := by
    intro t ht
    rcases List.mem_append.mp ht with h | h
    · exact htokX t h
    · exact htokPad t h
  have hspec1 := meanPoolingRow_spec n (X ++ pad) (mX ++ List.replicate pad.length 0) htokAll
  have hspec2 := meanPoolingRow_spec n X mX htokX
  simp only [mean_pooling, List.zipWith_cons_cons, List.getD_cons_zero]
  apply ext_of_getD n hspec1.1 hspec2.1
  intro j hj
  rw [hspec1.2 j hj, hspec2.2 j hj, List.zipWith_append _ _ _ _ _ hlenX,
    List.sum_append, zipWith_getDmul_replicate_zero_sum, add_zero,
    List.sum_append, List.sum_replicate, smul_zero, add_zero]

/-- Witness for C6: `X = [[2]]` with mask `[1]`, padded by one zero-mask token
`[9]`, batched with `Y = [[5],[7]]` (mask `[1,1]`). -/
theorem mean_pooling_batch_consistency_witness :
    (mean_pooling 1 [[[(2:ℚ)],[9]],[[5],[7]]] [[1,0],[1,1]]).getD 0 [] =
      (mean_pooling 1 [[[(2:ℚ)]]] [[1]]).getD 0 [] :=
  mean_pooling_batch_consistency 1 [[(2:ℚ)]] [[5],[7]] [[9]] [1] [1,1]
    (by decide) (by decide) (by decide)

/-- Claim C10: a batch row whose attention mask is entirely zero pools to the
zero vector exactly — the numerator is `0` and the clamp replaces the zero
denominator by `1e-9 > 0`, so the division is by a strictly positive number
and never undefined. -/
theorem mean_pooling_zero_mask_row (n s : Nat) (embs : List (List (List ℚ)))
    (maskB : List (List ℚ)) (i : Nat) (hie : i < embs.length) (him : i < maskB.length)
    (hmask : maskB.getD i [] = List.replicate s (0 : ℚ))
    (htok : ∀ t ∈ embs.getD i [], t.length = n) :
    (mean_pooling n embs maskB).getD i [] = List.replicate n 0 ∧
    max ((maskB.getD i []).sum) (poolEps (α := ℚ)) = poolEps ∧
    (0 : ℚ) < poolEps := by
  have hpos : (0 : ℚ) < poolEps := by norm_num [poolEps]
  have hrow : (mean_pooling n embs maskB).getD i [] =
      meanPoolingRow n (embs.getD i []) (maskB.getD i []) := by
    rw [mean_pooling]
    exact getD_zipWith (meanPoolingRow n) embs maskB i [] [] [] hie him
  have hspec := meanPoolingRow_spec n (embs.getD i []) (maskB.getD i []) htok
  refine ⟨?_, ?_, hpos⟩
  · rw [hrow]
    apply ext_of_getD n hspec.1 (by simp)
    intro j hj
    rw [hspec.2 j hj, hmask, zipWith_getDmul_replicate_zero_sum, zero_div]
    rw [List.getD_eq_getElem?_getD, List.getElem?_replicate]
    simp [hj]
  · rw [hmask, List.sum_replicate, smul_zero]
    exact max_eq_right hpos.le

/-- Witness for C10: hidden tensor `[[[5,7]]]`, all-zero mask `[[0]]`. -/
theorem mean_pooling_zero_mask_row_witness :
    (mean_pooling 2 [[[(5:ℚ),7]]] [[0]]).getD 0 [] = List.replicate 2 0 ∧
    max ((([[(0:ℚ)]] : List (List ℚ)).getD 0 []).sum) (poolEps (α := ℚ)) = poolEps ∧
    (0 : ℚ) < poolEps :=
  mean_pooling_zero_mask_row 2 1 [[[(5:ℚ),7]]] [[0]] 0
    (by decide) (by decide) (by decide) (by decide)

theorem npAllclose_iff (rtol atol : ℚ) (a b : List ℚ) :
    npAllclose rtol atol a b = true ↔
      ∀ p ∈ List.zip a b, |p.1 - p.2| ≤ atol + rtol * |p.2| := by
  induction a generalizing b with
  | nil => simp [npAllclose]
  | cons x xs ih =>
    cases b with
    | nil => simp [npAllclose]
    | cons y ys =>
      simp only [npAllclose, npIsclose, List.zipWith_cons_cons, List.all_cons,
        Bool.and_eq_true, decide_eq_true_eq, List.zip_cons_cons, List.mem_cons,
        forall_eq_or_imp]
      exact and_congr Iff.rfl (ih ys)

/-- Counterexample to C2 as stated: with reference element `10 + 1.5e-4` and
exported element `10`, the absolute difference `1.5e-4` exceeds `1e-4`, yet
the verifier still reports a close match, because `np.allclose` keeps its
default relative tolerance `rtol = 1e-5` on top of `atol = 1e-4`. -/
theorem verifier_tolerance_counterexample :
    numericalComparisonStep false [1, 384] [1, 384] [10 + 15 / 100000] [10] =
      NumericalCheck.compared CompareVerdict.matchClose ∧
    ¬ (|(10 + 15 / 100000 : ℚ) - 10| ≤ 1 / 10 ^ 4) := by
  have habs1 : |(10 + 15 / 100000 : ℚ) - 10| = 3 / 20000 := by
    rw [show (10 + 15 / 100000 : ℚ) - 10 = 3 / 20000 by norm_num]
    exact abs_of_pos (by norm_num)
  have habs2 : |(10 : ℚ)| = 10 := abs_of_pos (by norm_num)
  constructor
  · have hall : npAllclose allcloseDefaultRtol verifyAtol [10 + 15 / 100000] [10] = true := by
      rw [npAllclose_iff]
      intro p hp
      simp only [List.zip_cons_cons, List.zip_nil_right, List.mem_singleton] at hp
      subst hp
      rw [habs1, habs2]
      norm_num [verifyAtol, allcloseDefaultRtol]
    unfold numericalComparisonStep compareOutputs
    simp [hall]
  · rw [habs1]
    norm_num

/-- Claim C2 (amended): for a full-precision artifact with reference output of
the same shape, the verifier declares the outputs matching if and only if
every element satisfies `|ref - onnx| ≤ 1e-4 + 1e-5 * |onnx|` (the `atol=1e-4`
passed to `np.allclose` plus numpy's default `rtol = 1e-5`); otherwise it
reports a mismatch warning rather than a match. -/
theorem verifier_fullprec_tolerance (s : List Nat) (ref onnx : List ℚ) :
    (numericalComparisonStep false s s ref onnx =
        NumericalCheck.compared CompareVerdict.matchClose ↔
      ∀ p ∈ List.zip ref onnx, |p.1 - p.2| ≤ verifyAtol + allcloseDefaultRtol * |p.2|) ∧
    (numericalComparisonStep false s s ref onnx =
        NumericalCheck.compared CompareVerdict.mismatchWarn ↔
      ¬ ∀ p ∈ List.zip ref onnx, |p.1 - p.2| ≤ verifyAtol + allcloseDefaultRtol * |p.2|) := by
  rw [← npAllclose_iff allcloseDefaultRtol verifyAtol ref onnx]
  unfold numericalComparisonStep compareOutputs
  by_cases h : npAllclose allcloseDefaultRtol verifyAtol ref onnx = true
  · simp [h]
  · simp [h]

/-- Counterexample to C5 as stated: for a quantized artifact the verifier does
not run any numerical comparison against the reference — the comparison step
returns its skip branch, not a `compared` verdict. -/
theorem quantized_comparison_counterexample :
    numericalComparisonStep true [1, 384] [1, 384] [(0 : ℚ)] [0] =
      NumericalCheck.skippedQuantized ∧
    (NumericalCheck.skippedQuantized ≠
      NumericalCheck.compared CompareVerdict.matchClose) ∧
    (NumericalCheck.skippedQuantized ≠
      NumericalCheck.compared CompareVerdict.mismatchWarn) := by
  refine ⟨rfl, ?_, ?_⟩ <;> decide

/-- Claim C5 (amended): for every quantized artifact, `verify_onnx_model`
skips the numerical comparison against the reference model entirely (printing
"Skipping PyTorch comparison for quantized model"); no widened-tolerance
comparison is performed. -/
theorem quantized_comparison_is_skipped (s₁ s₂ : List Nat) (ref onnx : List ℚ) :
    numericalComparisonStep true s₁ s₂ ref onnx = NumericalCheck.skippedQuantized := rfl

/-- Counterexample to C3 as stated: the bge-small export declares the batch
axis dynamic but its dummy tracing input `torch.ones(1, seq_len)` has batch
size 1, not > 1. -/
theorem dummy_batch_size_counterexample :
    (bgeSmallShapePolicy 512).batchDynamic = true ∧
    ¬ 1 < (bgeSmallShapePolicy 512).dummyBatchSize := by decide

/-- Claim C3 (amended): only the dedicated dynamic-batching export traces with
dummy batch size 2 > 1; every other export in the repository (bge-small,
all-minilm, bge-base, gpu-fp16, e5-large-v2, st-code, codebert,
optimize-bge-for-gpu, download-optimized) declares the batch axis dynamic yet
uses a dummy input of batch size 1. -/
theorem dummy_batch_sizes (seqLen : Nat) (detectedMax : Option Nat) (dynSeq : Bool) :
    dynamicBatchingShapePolicy.batchDynamic = true ∧
    1 < dynamicBatchingShapePolicy.dummyBatchSize ∧
    (bgeSmallShapePolicy seqLen).batchDynamic = true ∧
    (bgeSmallShapePolicy seqLen).dummyBatchSize = 1 ∧
    allMinilmShapePolicy.batchDynamic = true ∧
    allMinilmShapePolicy.dummyBatchSize = 1 ∧
    bgeBaseShapePolicy.batchDynamic = true ∧
    bgeBaseShapePolicy.dummyBatchSize = 1 ∧
    (gpuFp16ShapePolicy detectedMax).batchDynamic = true ∧
    (gpuFp16ShapePolicy detectedMax).dummyBatchSize = 1 ∧
    e5LargeV2ShapePolicy.batchDynamic = true ∧
    e5LargeV2ShapePolicy.dummyBatchSize = 1 ∧
    stCodeShapePolicy.batchDynamic = true ∧
    stCodeShapePolicy.dummyBatchSize = 1 ∧
    codebertShapePolicy.batchDynamic = true ∧
    codebertShapePolicy.dummyBatchSize = 1 ∧
    optimizeBgeForGpuShapePolicy.batchDynamic = true ∧
    optimizeBgeForGpuShapePolicy.dummyBatchSize = 1 ∧
    (downloadOptimizedShapePolicy dynSeq).batchDynamic = true ∧
    (downloadOptimizedShapePolicy dynSeq).dummyBatchSize = 1 := by
  refine ⟨rfl, by norm_num [dynamicBatchingShapePolicy], rfl, rfl, rfl, rfl, rfl, rfl,
    rfl, rfl, rfl, rfl, rfl, rfl, rfl, rfl, rfl, rfl, rfl, rfl⟩

/-- Counterexample to C8 as stated: for the BGE model (maximum position count
512) the fixed-sequence gpu-fp16 export uses dummy sequence length 384, which
is not the model's maximum. -/
theorem gpu_seq_len_counterexample :
    (gpuFp16ShapePolicy (some 512)).seqDynamic = false ∧
    (gpuFp16ShapePolicy (some 512)).dummySeqLen = 384 ∧
    (384 : Nat) ≠ 512 := by decide

/-- Claim C8 (amended): in the fixed-sequence regime the gpu-fp16 export's
representative dummy sequence length is `min 384 detectedMax` — a
GPU-throughput cap, not the model's maximum position count; the other
fixed-sequence export (`download_optimized_bge_model.py` with
`dynamic_sequence` unset) hard-codes 512. -/
theorem gpu_fixed_seq_len (m : Nat) (hm : m ≠ 0) :
    ((gpuFp16ShapePolicy (some m)).seqDynamic = false ∧
      (gpuFp16ShapePolicy (some m)).dummySeqLen = min 384 m) ∧
    (downloadOptimizedShapePolicy false).seqDynamic = false ∧
    (downloadOptimizedShapePolicy false).dummySeqLen = 512 := by
  refine ⟨⟨rfl, ?_⟩, rfl, rfl⟩
  simp [gpuFp16ShapePolicy, get_optimal_sequence_length_for_gpu, hm]

/-- Witness for C8 (amended) at the BGE maximum position count 512. -/
theorem gpu_fixed_seq_len_witness :
    (((gpuFp16ShapePolicy (some 512)).seqDynamic = false ∧
      (gpuFp16ShapePolicy (some 512)).dummySeqLen = min 384 512) ∧
    (downloadOptimizedShapePolicy false).seqDynamic = false ∧
    (downloadOptimizedShapePolicy false).dummySeqLen = 512) :=
  gpu_fixed_seq_len 512 (by decide)

/-- Counterexample to C4 as stated: in the non-quantized configuration the
export writes directly to the final `model.onnx` (the "temporary" path *is*
the final path), so an interrupted export leaves a half-written file at the
final output path and no rename ever takes place. -/
theorem no_temp_rename_counterexample :
    exportTargetPath false = ModelPath.finalModel ∧
    exportInterruptedFs false ModelPath.finalModel = some ModelFile.incompleteWrite := by
  refine ⟨rfl, ?_⟩
  decide

/-- Claim C4 (amended): only the quantized configuration writes the exported
graph to a temporary path (`model_fp32.onnx`) first; the non-quantized
configuration exports straight to `<output_dir>/model.onnx`, where a failed
export can leave a partial file, and the only rename into the final path is
the quantization-failure fallback. -/
theorem artifact_write_paths :
    exportTargetPath true = ModelPath.fp32Temp ∧
    exportTargetPath false = ModelPath.finalModel ∧
    (runConversion false true).1 ModelPath.finalModel = some ModelFile.fullPrecision ∧
    exportInterruptedFs true ModelPath.finalModel = none ∧
    (runConversion true false).1 ModelPath.finalModel = some ModelFile.fullPrecision := by
  refine ⟨rfl, rfl, ?_, ?_, ?_⟩ <;> decide

/-- Claim C7: when quantization of a successfully exported full-precision
graph fails, the pipeline still completes: the full-precision export is moved
(`os.rename`) to the final `model.onnx`, the temporary path is gone, and the
final path is the returned value. -/
theorem quantize_failure_fallback :
    (runConversion true false).1 ModelPath.finalModel = some ModelFile.fullPrecision ∧
    (runConversion true false).1 ModelPath.fp32Temp = none ∧
    (runConversion true false).2 = ModelPath.finalModel := by
  refine ⟨?_, ?_, rfl⟩ <;> decide

theorem sumSq_nonneg (v : List ℝ) : 0 ≤ sumSq v := by
  unfold sumSq
  induction v with
  | nil => simp
  | cons x xs ih =>
    simp only [List.map_cons, List.sum_cons]
    exact add_nonneg (mul_self_nonneg x) ih

theorem l2norm_sq (v : List ℝ) : (l2norm v) ^ 2 = sumSq v :=
  Real.sq_sqrt (sumSq_nonneg v)

theorem normalizeEps_pos : (0 : ℝ) < normalizeEps := by norm_num [normalizeEps]

theorem sumSq_map_div (v : List ℝ) (c : ℝ) (hc : c ≠ 0) :
    sumSq (v.map (fun x => x / c)) = sumSq v / c ^ 2 := by
  unfold sumSq
  induction v with
  | nil => simp
  | cons x xs ih =>
    simp only [List.map_cons, List.sum_cons, List.map_map] at *
    rw [ih]
    field_simp
    ring

theorem l2norm_l2normalizeRow (v : List ℝ) (h : normalizeEps ≤ l2norm v) :
    l2norm (l2normalizeRow v) = 1 := by
  have hpos : 0 < l2norm v := lt_of_lt_of_le normalizeEps_pos h
  have hc : max (l2norm v) normalizeEps = l2norm v := max_eq_left h
  simp only [l2normalizeRow, hc]
  calc l2norm (v.map fun x => x / l2norm v)
      = Real.sqrt (sumSq v / (l2norm v) ^ 2) := by
        rw [l2norm, sumSq_map_div v (l2norm v) hpos.ne']
    _ = Real.sqrt 1 := by rw [← l2norm_sq v, div_self (pow_ne_zero 2 hpos.ne')]
    _ = 1 := Real.sqrt_one

theorem l2normalizeRow_length (v : List ℝ) : (l2normalizeRow v).length = v.length := by
  simp [l2normalizeRow]

theorem max_one_poolEps : max (1 : α) poolEps = 1 :=
  max_eq_left (by norm_num [poolEps])

theorem meanPoolingRow_pair (a b : α) : meanPoolingRow 2 [[a, b]] [(1 : α)] = [a, b] := by
  simp only [meanPoolingRow, List.map_cons, List.map_nil]
  rw [show List.replicate 2 (1 : α) = [1, 1] from rfl]
  simp only [List.zipWith_cons_cons, List.zipWith_nil_right, List.zipWith_nil_left,
    sumVecs_cons, sumVecs_nil, vecAdd]
  rw [show zeroVec 2 = ([0, 0] : List α) from rfl]
  simp only [List.zipWith_cons_cons, List.zipWith_nil_left, List.map_cons, List.map_nil,
    mul_one, add_zero, one_mul]
  rw [max_one_poolEps, div_one, div_one]

theorem meanPoolingRow_single (a : α) : meanPoolingRow 1 [[a]] [(1 : α)] = [a] := by
  simp only [meanPoolingRow, List.map_cons, List.map_nil]
  rw [show List.replicate 1 (1 : α) = [1] from rfl]
  simp only [List.zipWith_cons_cons, List.zipWith_nil_right, List.zipWith_nil_left,
    sumVecs_cons, sumVecs_nil, vecAdd]
  rw [show zeroVec 1 = ([0] : List α) from rfl]
  simp only [List.zipWith_cons_cons, List.zipWith_nil_left, List.map_cons, List.map_nil,
    mul_one, add_zero, one_mul]
  rw [max_one_poolEps, div_one]

theorem l2norm_singleton (x : ℝ) (hx : 0 ≤ x) : l2norm [x] = x := by
  unfold l2norm sumSq
  simp only [List.map_cons, List.map_nil, List.sum_cons, List.sum_nil, add_zero]
  rw [show x * x = x ^ 2 by ring, Real.sqrt_sq hx]

/-- Counterexample to C9 as stated: the pooled row `[1e-13]` is nonzero, yet
because `torch.nn.functional.normalize` divides by `max(norm, 1e-12)` (its
default `eps`), the wrapped model's output row is `[1e-13 / 1e-12] = [0.1]`,
whose Euclidean norm is `0.1`, not 1. -/
theorem normalize_tiny_row_counterexample :
    (mean_pooling 1 [[[(1 : ℝ) / 10 ^ 13]]] [[1]]).getD 0 [] = [(1 : ℝ) / 10 ^ 13] ∧
    ([(1 : ℝ) / 10 ^ 13] : List ℝ) ≠ ([0] : List ℝ) ∧
    (dynamicBatchForward 1 [[[(1 : ℝ) / 10 ^ 13]]] [[1]]).getD 0 [] = [(1 : ℝ) / 10] ∧
    l2norm [(1 : ℝ) / 10] ≠ 1 := by
  have hx : (0 : ℝ) ≤ 1 / 10 ^ 13 := by norm_num
  have hpool : (mean_pooling 1 [[[(1 : ℝ) / 10 ^ 13]]] [[1]]).getD 0 [] =
      [(1 : ℝ) / 10 ^ 13] := by
    simp only [mean_pooling, List.zipWith_cons_cons, List.zipWith_nil_right,
      List.getD_cons_zero]
    exact meanPoolingRow_single _
  have hnorm : l2norm [(1 : ℝ) / 10 ^ 13] = 1 / 10 ^ 13 := l2norm_singleton _ hx
  have hmax : max (l2norm [(1 : ℝ) / 10 ^ 13]) normalizeEps = 1 / 10 ^ 12 := by
    rw [hnorm, normalizeEps]
    exact max_eq_right (by norm_num)
  refine ⟨hpool, by norm_num, ?_, ?_⟩
  · have : dynamicBatchForward 1 [[[(1 : ℝ) / 10 ^ 13]]] [[1]] =
        [l2normalizeRow ((mean_pooling 1 [[[(1 : ℝ) / 10 ^ 13]]] [[1]]).getD 0 [])] := by
      rw [dynamicBatchForward]
      simp only [mean_pooling, List.zipWith_cons_cons, List.zipWith_nil_right,
        List.map_cons, List.map_nil, List.getD_cons_zero]
    rw [this, hpool, List.getD_cons_zero, l2normalizeRow, hmax]
    norm_num
  · rw [l2norm_singleton _ (by norm_num : (0:ℝ) ≤ 1 / 10)]
    norm_num

/-- Claim C9 (amended): when L2 normalization is enabled, every output row of
the wrapped model whose pooled vector has Euclidean norm at least the
`torch.nn.functional.normalize` clamp floor `eps = 1e-12` (in particular every
practically occurring nonzero row) has Euclidean norm exactly 1, and for
hidden size `n` the output row has length `n` (384 for the 384-hidden-size
model). -/
theorem forward_rows_normalized (n : Nat) (embs : List (List (List ℝ)))
    (maskB : List (List ℝ)) (i : Nat) (hie : i < embs.length) (him : i < maskB.length)
    (htok : ∀ t ∈ embs.getD i [], t.length = n)
    (hnorm : normalizeEps ≤ l2norm ((mean_pooling n embs maskB).getD i [])) :
    l2norm ((dynamicBatchForward n embs maskB).getD i []) = 1 ∧
    ((dynamicBatchForward n embs maskB).getD i []).length = n := by
  have hlen : i < (mean_pooling n embs maskB).length := by
    rw [mean_pooling, List.length_zipWith]
    omega
  have hfwd : (dynamicBatchForward n embs maskB).getD i [] =
      l2normalizeRow ((mean_pooling n embs maskB).getD i []) := by
    rw [dynamicBatchForward]
    exact getD_map l2normalizeRow _ i [] [] hlen
  have hrow : (mean_pooling n embs maskB).getD i [] =
      meanPoolingRow n (embs.getD i []) (maskB.getD i []) := by
    rw [mean_pooling]
    exact getD_zipWith (meanPoolingRow n) embs maskB i [] [] [] hie him
  refine ⟨?_, ?_⟩
  · rw [hfwd]
    exact l2norm_l2normalizeRow _ hnorm
  · rw [hfwd, l2normalizeRow_length, hrow]
    exact (meanPoolingRow_spec n _ _ htok).1

/-- Witness for C9 (amended): hidden tensor `[[[3,4]]]`, mask `[[1]]` — the
pooled row is `[3,4]` with norm `5 ≥ 1e-12`, and the wrapped model's output
row has norm 1 and length 2. -/
theorem forward_rows_normalized_witness :
    l2norm ((dynamicBatchForward 2 [[[(3 : ℝ), 4]]] [[1]]).getD 0 []) = 1 ∧
    ((dynamicBatchForward 2 [[[(3 : ℝ), 4]]] [[1]]).getD 0 []).length = 2 :=
  forward_rows_normalized 2 [[[(3 : ℝ), 4]]] [[1]] 0 (by norm_num) (by norm_num)
    (by
      intro t ht
      simp only [List.getD_cons_zero, List.mem_singleton] at ht
      subst ht
      rfl)
    (by
      have hpool : (mean_pooling 2 [[[(3 : ℝ), 4]]] [[1]]).getD 0 [] = [(3 : ℝ), 4] := by
        simp only [mean_pooling, List.zipWith_cons_cons, List.zipWith_nil_right,
          List.getD_cons_zero]
        exact meanPoolingRow_pair 3 4
      have h34 : l2norm [(3 : ℝ), 4] = 5 := by
        unfold l2norm sumSq
        simp only [List.map_cons, List.map_nil, List.sum_cons, List.sum_nil]
        rw [show (3 : ℝ) * 3 + (4 * 4 + 0) = 5 ^ 2 by norm_num,
          Real.sqrt_sq (by norm_num : (0 : ℝ) ≤ 5)]
      rw [hpool, h34, normalizeEps]
      norm_num)
